import Mathlib

/-!
Verification of the Hypermind peer-discovery and directory subsystem.

The definitions below are a shallow embedding of the JavaScript sources:
`src/discovery/bootstrap.js` (bootstrap orchestrator, peer cache,
IPv4 scan), the `PeerManager` class (in-memory peer directory), and the
configuration constants.  JavaScript numbers are modelled as `Nat` (for
counters, ports, sizes) and `Int` (for millisecond timestamps, so that
`now - lastSeen` never truncates); `Map` objects are modelled as
association lists with unique keys; fallible I/O is modelled by explicit
state types.  Timestamp comparisons written in the source with a real
division, such as `(now - lastSeen) / 1000 > maxAge`, are modelled by the
equivalent integer comparison `now - lastSeen > maxAge * 1000`, which is
exact for integer inputs.
-/

set_option maxRecDepth 10000

namespace Hypermind

/-! ### Address-space enumerator (Feistel permutation)

Modelled from the spec: `createFeistelGenerator` and `ipv4ToString` live in
`src/discovery/feistel.js`, which is not among the sources (only its caller
`bootstrap.js` is).  Spec section 4.1 prescribes a balanced Feistel network
of at least 3-4 rounds operating on 32-bit blocks split into 16-bit halves,
keyed by the seed, with a 32-bit counter starting at 0 that is encrypted by
the rounds on each `next()` call; the concrete keyed round function below
is one admissible choice of mixing function, and the properties proved
depend only on the Feistel structure, not on that choice. -/

/-- Modelled from the spec: the keyed round function of the Feistel network
(`feistel.js` is missing from the sources).  Any function of the seed, the
round index and the right half works; this is one concrete mixing choice,
reduced to a 16-bit value. -/
def feistelRoundF (seed round r : Nat) : Nat :=
  (r * 2654435761 + seed * 2246822519 + round * 3266489917 + 374761393) % 65536

/-- One balanced Feistel round on a pair of 16-bit halves:
`(l, r) ↦ (r, (l xor F(r)) mod 2^16)`. -/
def feistelRound (seed i : Nat) (p : Nat × Nat) : Nat × Nat :=
  (p.2, (p.1 ^^^ feistelRoundF seed i p.2) % 65536)

/-- Inverse of one Feistel round: `(l', r') ↦ ((r' xor F(l')) mod 2^16, l')`. -/
def feistelUnround (seed i : Nat) (p : Nat × Nat) : Nat × Nat :=
  ((p.2 ^^^ feistelRoundF seed i p.1) % 65536, p.1)

/-- Four Feistel rounds applied to a pair of 16-bit halves. -/
def feistelEncryptPair (seed : Nat) (p : Nat × Nat) : Nat × Nat :=
  feistelRound seed 3 (feistelRound seed 2 (feistelRound seed 1 (feistelRound seed 0 p)))

/-- The four inverse rounds, in reverse order. -/
def feistelDecryptPair (seed : Nat) (p : Nat × Nat) : Nat × Nat :=
  feistelUnround seed 0 (feistelUnround seed 1 (feistelUnround seed 2 (feistelUnround seed 3 p)))

/-- Modelled from the spec: encrypting one 32-bit counter value through the
Feistel rounds (the body of the enumerator's `next()`).  The input is split
into 16-bit halves, passed through four rounds, and recombined. -/
def feistelEncrypt (seed x : Nat) : Nat :=
  (feistelEncryptPair seed (x / 65536 % 65536, x % 65536)).1 * 65536 +
    (feistelEncryptPair seed (x / 65536 % 65536, x % 65536)).2

/-- The inverse permutation of `feistelEncrypt`. -/
def feistelDecrypt (seed y : Nat) : Nat :=
  (feistelDecryptPair seed (y / 65536 % 65536, y % 65536)).1 * 65536 +
    (feistelDecryptPair seed (y / 65536 % 65536, y % 65536)).2

/-- Modelled from the spec: the enumerator state, a struct holding the
Feistel key and a 32-bit counter starting at 0 (spec sections 4.1 and 9). -/
structure FeistelGenerator where
  seed : Nat
  counter : Nat
deriving Repr, DecidableEq

/-- Modelled from the spec: `createFeistelGenerator(seed)` starts the
counter at 0. -/
def createFeistelGenerator (seed : Nat) : FeistelGenerator :=
  ⟨seed, 0⟩

/-- Modelled from the spec: each `next()` call encrypts the current 32-bit
counter through the Feistel rounds and increments the counter. -/
def FeistelGenerator.next (g : FeistelGenerator) : Nat × FeistelGenerator :=
  (feistelEncrypt g.seed (g.counter % 4294967296), ⟨g.seed, g.counter + 1⟩)

/-! ### Peer directory (`PeerManager`, from the class source quoted in the
repository documentation)

The JavaScript `Map` keyed by peer id is modelled as an association list
with unique keys: `Map.get` is `List.lookup`, `Map.set` updates the entry
in place when the key is present and appends otherwise, `Map.delete`
removes the entry with the key, and `Map.size` is the list length.
`MAX_PEERS` and `PEER_TIMEOUT` are configuration constants
(`src/config/constants.js`) and are passed as parameters; `Date.now()` is
passed as an explicit `now : Int` argument. -/

/-- The value stored per peer id.  `addOrUpdatePeer` stores `{seq, lastSeen,
key}` (no address fields, modelled as `none`); `fromJSON` restores `{seq,
lastSeen, ip, port, key}`. -/
structure PeerData where
  seq : Nat
  lastSeen : Int
  key : Option (List Nat)
  ip : Option String
  port : Option Nat
deriving Repr, DecidableEq

/-- The `PeerManager` state: the `seenPeers` map and this node's own
`mySeq` counter. -/
structure PeerManager where
  seenPeers : List (String × PeerData)
  mySeq : Nat
deriving Repr, DecidableEq

/-- JavaScript `Map.set`: overwrite the entry in place if the key is
present (preserving insertion order), append otherwise. -/
def mapSet : List (String × PeerData) → String → PeerData → List (String × PeerData)
  | [], id, v => [(id, v)]
  | kv :: tl, id, v => if kv.1 = id then (id, v) :: tl else kv :: mapSet tl id v

/-- JavaScript `Map.delete`: remove the entry with the given key. -/
def mapDelete : List (String × PeerData) → String → List (String × PeerData)
  | [], _ => []
  | kv :: tl, id => if kv.1 = id then tl else kv :: mapDelete tl id

/-- `addOrUpdatePeer(id, seq, key)`: records whether the id was new, then
unconditionally stores `{seq, lastSeen: Date.now(), key}` under the id.
Returns the updated manager and `wasNew`. -/
def PeerManager.addOrUpdatePeer (pm : PeerManager) (id : String) (seq : Nat)
    (key : Option (List Nat)) (now : Int) : PeerManager × Bool :=
  let stored := pm.seenPeers.lookup id
  let wasNew := stored.isNone
  ({ pm with seenPeers := mapSet pm.seenPeers id ⟨seq, now, key, none, none⟩ }, wasNew)

/-- `canAcceptPeer(id)`: `true` if the id is already present, otherwise
`true` iff the current size is below `MAX_PEERS`. -/
def PeerManager.canAcceptPeer (pm : PeerManager) (maxPeers : Nat) (id : String) : Bool :=
  if (pm.seenPeers.lookup id).isSome then true
  else pm.seenPeers.length < maxPeers

/-- `getPeer(id)`: `Map.get`. -/
def PeerManager.getPeer (pm : PeerManager) (id : String) : Option PeerData :=
  pm.seenPeers.lookup id

/-- `hasPeer(id)`: `Map.has`. -/
def PeerManager.hasPeer (pm : PeerManager) (id : String) : Bool :=
  (pm.seenPeers.lookup id).isSome

/-- `removePeer(id)`: `Map.delete`, returning whether an entry was removed. -/
def PeerManager.removePeer (pm : PeerManager) (id : String) : PeerManager × Bool :=
  ({ pm with seenPeers := mapDelete pm.seenPeers id }, (pm.seenPeers.lookup id).isSome)

/-- `size` getter. -/
def PeerManager.size (pm : PeerManager) : Nat :=
  pm.seenPeers.length

/-- `incrementSeq()`: `++this.mySeq`. -/
def PeerManager.incrementSeq (pm : PeerManager) : PeerManager × Nat :=
  ({ pm with mySeq := pm.mySeq + 1 }, pm.mySeq + 1)

/-- The eviction sweep body shared by `cleanupStalePeers` and `prune`: a
fold over the current entries that deletes each entry satisfying the
staleness test `stale` and counts the deletions, mirroring the JavaScript
`for (const [id, data] of this.seenPeers) { if (...) { delete; removed++ } }`
loop. -/
def sweepStale (m : List (String × PeerData)) (stale : String × PeerData → Bool) :
    List (String × PeerData) × Nat :=
  m.foldl (fun acc kv => if stale kv then (mapDelete acc.1 kv.1, acc.2 + 1) else acc) (m, 0)

/-- `cleanupStalePeers()`: removes every entry with
`now - lastSeen > PEER_TIMEOUT` (milliseconds) and returns the number
removed. -/
def PeerManager.cleanupStalePeers (pm : PeerManager) (now timeoutMs : Int) :
    PeerManager × Nat :=
  let res := sweepStale pm.seenPeers (fun kv => decide (now - kv.2.lastSeen > timeoutMs))
  ({ pm with seenPeers := res.1 }, res.2)

/-- `prune(maxAge)`: removes every entry whose age in seconds,
`(now - lastSeen) / 1000`, exceeds `maxAge`; the real-division comparison
is modelled exactly as `now - lastSeen > maxAge * 1000`. -/
def PeerManager.prune (pm : PeerManager) (now maxAge : Int) : PeerManager × Nat :=
  let res := sweepStale pm.seenPeers (fun kv => decide (now - kv.2.lastSeen > maxAge * 1000))
  ({ pm with seenPeers := res.1 }, res.2)

/-- One serialized peer object as stored by `PeerManager.toJSON` /
consumed by `fromJSON`.  Absent JSON fields are `none`. -/
structure PeerJson where
  id : String
  seq : Option Nat
  lastSeen : Option Int
  ip : Option String
  port : Option Nat
  key : Option (List Nat)
deriving Repr, DecidableEq

/-- JavaScript `x || d` for an optional integer field: absent or `0`
(falsy) yields the default. -/
def jsOrInt (v : Option Int) (d : Int) : Int :=
  match v with
  | none => d
  | some x => if x = 0 then d else x

/-- JavaScript `x || d` for an optional counter field. -/
def jsOrNat (v : Option Nat) (d : Nat) : Nat :=
  match v with
  | none => d
  | some x => if x = 0 then d else x

/-- `fromJSON(data)`: for each serialized peer, `Map.set` the restored
record (`seq || 0`, `lastSeen || Date.now()`, address fields, key). -/
def PeerManager.fromJSON (pm : PeerManager) (data : List PeerJson) (now : Int) :
    PeerManager :=
  { pm with
    seenPeers := data.foldl
      (fun m p => mapSet m p.id ⟨jsOrNat p.seq 0, jsOrInt p.lastSeen now, p.key, p.ip, p.port⟩)
      pm.seenPeers }

/-- The directory invariant: at most one record per id, i.e. the key list
of the map is duplicate-free. -/
def PeerManager.Wf (pm : PeerManager) : Prop :=
  (pm.seenPeers.map Prod.fst).Nodup

instance (pm : PeerManager) : Decidable pm.Wf := by
  unfold PeerManager.Wf
  infer_instance

/-! ### Peer cache (`loadPeerCache` / `savePeerCache` in
`src/discovery/bootstrap.js`)

The cache file is modelled as a `FileState`: missing, unparseable (so
`JSON.parse` throws and the `catch` returns `[]`), or a parsed JSON value.
A parsed value is either a bare array of peers (the legacy format, whose
`version` field is `undefined` and hence falsy), or an object with a
`version` field, a timestamp and a `peers` field (`none` models a missing
or non-array `peers` field), or some other JSON value. -/

/-- One cached peer entry `{ip, port, id, lastSeen}` (`id` is `null` for a
peer found by the scan before any handshake). -/
structure CachePeer where
  ip : String
  port : Nat
  id : Option String
  lastSeen : Int
deriving Repr, DecidableEq

/-- Parsed cache-file JSON, as distinguished by `loadPeerCache`. -/
inductive CacheData where
  | jarray (peers : List CachePeer)
  | jobject (version : Nat) (timestamp : Int) (peers : Option (List CachePeer))
  | other
deriving Repr, DecidableEq

/-- The cache file on disk. -/
inductive FileState where
  | missing
  | corrupt
  | parsed (data : CacheData)
deriving Repr, DecidableEq

/-- `loadPeerCache()`: disabled cache or missing file yields `[]`; an
unparseable file is caught and yields `[]`; `data.version ? data.peers :
data` selects the peers array (any non-zero `version` is truthy — there is
no equality check against the expected tag); a non-array result warns and
yields `[]`; finally stale entries (age in seconds not below
`PEER_CACHE_MAX_AGE`) are pruned, the comparison
`(now - lastSeen) / 1000 < maxAge` being modelled exactly as
`now - lastSeen < maxAge * 1000`. -/
def loadPeerCache (enabled : Bool) (file : FileState) (now maxAge : Int) :
    List CachePeer :=
  if !enabled then []
  else
    match file with
    | FileState.missing => []
    | FileState.corrupt => []
    | FileState.parsed d =>
      let peersField : Option (List CachePeer) :=
        match d with
        | CacheData.jarray ps => some ps
        | CacheData.jobject v _ ps => if v ≠ 0 then ps else none
        | CacheData.other => none
      match peersField with
      | none => []
      | some ps => ps.filter fun p => decide (now - p.lastSeen < maxAge * 1000)

/-- `savePeerCache(peers)`: a no-op when the cache is disabled; otherwise
replaces the file with `{version: 1, timestamp: now, peers: peers.slice(0,
100)}`. -/
def savePeerCache (enabled : Bool) (file : FileState) (now : Int)
    (peers : List CachePeer) : FileState :=
  if !enabled then file
  else FileState.parsed (CacheData.jobject 1 now (some (peers.take 100)))

/-! ### IPv4 scan and bootstrap orchestrator (`src/discovery/bootstrap.js`)

Network connectivity is modelled by an oracle `connectOk : ip → port →
Bool` (the outcome of `tryConnectToPeer` within its timeout), and
wall-clock time inside the scan loop by `clock k : Int`, the value of
`Date.now() - startTime` observed at the top of the `k`-th loop iteration.
The orchestrator is given a writer-style embedding: alongside its result it
returns the list of observable phase events, in order. -/

/-- Modelled from the spec: `ipv4ToString` (in the missing `feistel.js`)
renders the 32-bit output as a dotted quad (spec section 4.1). -/
def ipv4ToString (addr : Nat) : String :=
  toString ((addr >>> 24) % 256) ++ "." ++ toString ((addr >>> 16) % 256) ++ "." ++
    toString ((addr >>> 8) % 256) ++ "." ++ toString (addr % 256)

/-- Splitting a string on the dot character (`ip.split('.')`), implemented
structurally on the character list so that it evaluates inside proofs. -/
def splitDots : List Char → List (List Char)
  | [] => [[]]
  | c :: cs =>
    let rest := splitDots cs
    if c = '.' then [] :: rest
    else
      match rest with
      | [] => [[c]]
      | g :: gs => (c :: g) :: gs

/-- JavaScript `Number(s)` restricted to strings of decimal digits, the
only form produced by `ipv4ToString` for each dotted-quad part. -/
def parseDigits (cs : List Char) : Nat :=
  cs.foldl (fun n c => n * 10 + (c.toNat - 48)) 0

/-- `shouldSkipAddress(ip)`: loopback, RFC1918 private, link-local,
multicast and reserved ranges are skipped, by splitting the dotted quad
(`ip.split('.').map(Number)`) and comparing the leading octets. -/
def shouldSkipAddress (ip : String) : Bool :=
  let parts := (splitDots ip.toList).map parseDigits
  let p0 := parts.getD 0 0
  let p1 := parts.getD 1 0
  if p0 == 127 then true
  else if p0 == 10 then true
  else if p0 == 172 && decide (16 ≤ p1) && decide (p1 ≤ 31) then true
  else if p0 == 192 && p1 == 168 then true
  else if p0 == 169 && p1 == 254 then true
  else if decide (224 ≤ p0) && decide (p0 ≤ 239) then true
  else if decide (240 ≤ p0) then true
  else false

/-- The environment of one bootstrap run: configuration constants plus the
connectivity and clock oracles. -/
structure BootstrapEnv where
  bootstrapPeerIp : Option String
  scanPort : Nat
  connectOk : String → Nat → Bool
  cacheEnabled : Bool
  cacheFile : FileState
  cacheMaxAge : Int
  bootstrapTimeout : Int
  now : Int
  clock : Nat → Int

/-- The first cached peer that answers a connection attempt, in cache
(recency) order — the loop body of `retryCachedPeers`. -/
def firstReachable (connectOk : String → Nat → Bool) : List CachePeer → Option CachePeer
  | [] => none
  | p :: ps => if connectOk p.ip p.port then some p else firstReachable connectOk ps

/-- `retryCachedPeers()`: load the cache (pruning stale entries) and return
the first reachable cached peer, or `null`. -/
def retryCachedPeers (env : BootstrapEnv) : Option CachePeer :=
  firstReachable env.connectOk
    (loadPeerCache env.cacheEnabled env.cacheFile env.now env.cacheMaxAge)

/-- The `while (attempts < maxAttempts)` loop of `scanIPv4Space`, with
`fuel = 100000 - attempts`.  Each iteration first checks the deadline, then
consumes one enumerator candidate (`attempts` doubles as the Feistel
counter, both being incremented once per iteration), skips filtered
addresses, samples every 100th surviving attempt, and tries a connection.
Returns the result together with the number of candidates consumed. -/
def scanGo (env : BootstrapEnv) (seed : Nat) (timeout : Int) :
    Nat → Nat → Option (String × Nat) × Nat
  | 0, attempts => (none, attempts)
  | fuel + 1, attempts =>
    if env.clock attempts > timeout then (none, attempts)
    else
      let ip := ipv4ToString (feistelEncrypt seed (attempts % 4294967296))
      if shouldSkipAddress ip then scanGo env seed timeout fuel (attempts + 1)
      else if (attempts + 1) % 100 != 0 then scanGo env seed timeout fuel (attempts + 1)
      else if env.connectOk ip env.scanPort then (some (ip, env.scanPort), attempts + 1)
      else scanGo env seed timeout fuel (attempts + 1)

/-- `scanIPv4Space(seed, timeout)`: runs the scan loop from `attempts = 0`
with the `maxAttempts = 100000` bound.  The second component is the number
of enumerator candidates consumed. -/
def scanIPv4Space (env : BootstrapEnv) (seed : Nat) (timeout : Int) :
    Option (String × Nat) × Nat :=
  scanGo env seed timeout 100000 0

/-- Observable events of one bootstrap run, in order: invocation of the
cache-replay phase (`retryCachedPeers`), of the scan phase
(`scanIPv4Space`), and of `savePeerCache` with its argument. -/
inductive BEvent where
  | cachePhase
  | scanPhase
  | cacheSave (peers : List CachePeer)
deriving Repr, DecidableEq

/-- The result of `bootstrapPeers`, tagged by the return site. -/
inductive BootResult where
  | debugPeer (ip : String) (port : Nat)
  | cachedPeer (p : CachePeer)
  | scannedPeer (p : CachePeer)
  | noPeer
deriving Repr, DecidableEq

/-- The part of `bootstrapPeers` after the debug block: cache replay, then
the IPv4 scan — whose successful peer is augmented with `id: null` and
`lastSeen: Date.now()` and passed to `savePeerCache` — and finally the
DHT-fallback signal `null`. -/
def bootstrapAfterDebug (env : BootstrapEnv) (seed : Nat) : BootResult × List BEvent :=
  match retryCachedPeers env with
  | some p => (BootResult.cachedPeer p, [BEvent.cachePhase])
  | none =>
    match (scanIPv4Space env seed env.bootstrapTimeout).1 with
    | some (ip, port) =>
      let peer : CachePeer := ⟨ip, port, none, env.now⟩
      (BootResult.scannedPeer peer,
        [BEvent.cachePhase, BEvent.scanPhase, BEvent.cacheSave [peer]])
    | none => (BootResult.noPeer, [BEvent.cachePhase, BEvent.scanPhase])

/-- `bootstrapPeers(seed)`: debug override first (when `BOOTSTRAP_PEER_IP`
is set and answers, return immediately with no other phase run), falling
through to cache replay, scan and the DHT-fallback signal. -/
def bootstrapPeers (env : BootstrapEnv) (seed : Nat) : BootResult × List BEvent :=
  match env.bootstrapPeerIp with
  | some dip =>
    if env.connectOk dip env.scanPort then
      (BootResult.debugPeer dip env.scanPort, [])
    else bootstrapAfterDebug env seed
  | none => bootstrapAfterDebug env seed

/-! ### Concrete instances used by counterexamples and witnesses -/

/-- An environment with a reachable debug peer configured. -/
def envDebug : BootstrapEnv where
  bootstrapPeerIp := some "9.9.9.9"
  scanPort := 3000
  connectOk := fun ip _ => ip == "9.9.9.9"
  cacheEnabled := true
  cacheFile := FileState.parsed (CacheData.jobject 1 0 (some [⟨"5.5.5.5", 3000, none, 0⟩]))
  cacheMaxAge := 86400
  bootstrapTimeout := 10000
  now := 1000
  clock := fun _ => 0

/-- An environment with no debug peer, an empty cache and a connectivity
oracle that answers every probe, so that the scan phase succeeds. -/
def envScan : BootstrapEnv where
  bootstrapPeerIp := none
  scanPort := 3000
  connectOk := fun _ _ => true
  cacheEnabled := false
  cacheFile := FileState.missing
  cacheMaxAge := 86400
  bootstrapTimeout := 10000
  now := 2000
  clock := fun _ => 0

/-- An environment in which nothing is reachable and the scan deadline
never elapses. -/
def envNoPeers : BootstrapEnv where
  bootstrapPeerIp := none
  scanPort := 3000
  connectOk := fun _ _ => false
  cacheEnabled := false
  cacheFile := FileState.missing
  cacheMaxAge := 86400
  bootstrapTimeout := 1000000000
  now := 0
  clock := fun _ => 0

/-- A concrete directory with three peers of ages 5 s, 20 s and 61 s at
time `now = 100000` ms. -/
def pmAges : PeerManager where
  seenPeers :=
    [("a", ⟨1, 95000, none, none, none⟩),
     ("b", ⟨2, 80000, none, none, none⟩),
     ("c", ⟨3, 39000, none, none, none⟩)]
  mySeq := 0

/-- A concrete directory holding exactly one peer, used at capacity 1. -/
def pmFull : PeerManager where
  seenPeers := [("x", ⟨1, 0, none, none, none⟩)]
  mySeq := 0

/-- A concrete cached peer. -/
def p1 : CachePeer := ⟨"1.1.1.1", 3000, some "idA", 900⟩

/-- A second concrete cached peer, seen less recently than `p1`. -/
def p2 : CachePeer := ⟨"2.2.2.2", 3001, some "idB", 800⟩

lemma feistelRoundF_lt (seed i r : Nat) : feistelRoundF seed i r < 65536 :=
  Nat.mod_lt _ (by norm_num)

lemma feistelRound_fst_lt (seed i : Nat) (p : Nat × Nat) (h : p.2 < 65536) :
    (feistelRound seed i p).1 < 65536 := h

lemma feistelRound_snd_lt (seed i : Nat) (p : Nat × Nat) :
    (feistelRound seed i p).2 < 65536 :=
  Nat.mod_lt _ (by norm_num)

lemma feistelUnround_fst_lt (seed i : Nat) (p : Nat × Nat) :
    (feistelUnround seed i p).1 < 65536 :=
  Nat.mod_lt _ (by norm_num)

lemma feistelUnround_snd_lt (seed i : Nat) (p : Nat × Nat) (h : p.1 < 65536) :
    (feistelUnround seed i p).2 < 65536 := h

lemma xor_lt_65536 {a b : Nat} (ha : a < 65536) (hb : b < 65536) : a ^^^ b < 65536 := by
  have h : a ^^^ b < 2 ^ 16 :=
    Nat.xor_lt_two_pow (by norm_num at ha ⊢; exact ha) (by norm_num at hb ⊢; exact hb)
  norm_num at h
  exact h

lemma feistelUnround_feistelRound (seed i : Nat) (p : Nat × Nat) (h1 : p.1 < 65536) :
    feistelUnround seed i (feistelRound seed i p) = p := by
  obtain ⟨l, r⟩ := p
  have hF : feistelRoundF seed i r < 65536 := feistelRoundF_lt seed i r
  have hx : l ^^^ feistelRoundF seed i r < 65536 := xor_lt_65536 h1 hF
  simp only [feistelRound, feistelUnround, Nat.mod_eq_of_lt hx, Nat.xor_cancel_right,
    Nat.mod_eq_of_lt h1]

lemma feistelRound_feistelUnround (seed i : Nat) (p : Nat × Nat) (h2 : p.2 < 65536) :
    feistelRound seed i (feistelUnround seed i p) = p := by
  obtain ⟨l, r⟩ := p
  have hF : feistelRoundF seed i l < 65536 := feistelRoundF_lt seed i l
  have hx : r ^^^ feistelRoundF seed i l < 65536 := xor_lt_65536 h2 hF
  simp only [feistelRound, feistelUnround, Nat.mod_eq_of_lt hx, Nat.xor_cancel_right,
    Nat.mod_eq_of_lt h2]

lemma feistelEncryptPair_fst_lt (seed : Nat) (p : Nat × Nat) :
    (feistelEncryptPair seed p).1 < 65536 := by
  unfold feistelEncryptPair
  exact feistelRound_fst_lt _ _ _ (feistelRound_snd_lt _ _ _)

lemma feistelEncryptPair_snd_lt (seed : Nat) (p : Nat × Nat) :
    (feistelEncryptPair seed p).2 < 65536 :=
  feistelRound_snd_lt _ _ _

lemma feistelDecryptPair_fst_lt (seed : Nat) (p : Nat × Nat) :
    (feistelDecryptPair seed p).1 < 65536 :=
  feistelUnround_fst_lt _ _ _

lemma feistelDecryptPair_snd_lt (seed : Nat) (p : Nat × Nat) :
    (feistelDecryptPair seed p).2 < 65536 := by
  unfold feistelDecryptPair
  exact feistelUnround_snd_lt _ _ _ (feistelUnround_fst_lt _ _ _)

lemma feistelDecryptPair_feistelEncryptPair (seed : Nat) (p : Nat × Nat)
    (h1 : p.1 < 65536) (h2 : p.2 < 65536) :
    feistelDecryptPair seed (feistelEncryptPair seed p) = p := by
  have b0f : (feistelRound seed 0 p).1 < 65536 := feistelRound_fst_lt _ _ _ h2
  have b0s : (feistelRound seed 0 p).2 < 65536 := feistelRound_snd_lt _ _ _
  have b1f : (feistelRound seed 1 (feistelRound seed 0 p)).1 < 65536 :=
    feistelRound_fst_lt _ _ _ b0s
  have b1s : (feistelRound seed 1 (feistelRound seed 0 p)).2 < 65536 :=
    feistelRound_snd_lt _ _ _
  have b2f : (feistelRound seed 2 (feistelRound seed 1 (feistelRound seed 0 p))).1 < 65536 :=
    feistelRound_fst_lt _ _ _ b1s
  unfold feistelEncryptPair feistelDecryptPair
  rw [feistelUnround_feistelRound seed 3 _ b2f, feistelUnround_feistelRound seed 2 _ b1f,
    feistelUnround_feistelRound seed 1 _ b0f, feistelUnround_feistelRound seed 0 _ h1]

lemma feistelEncryptPair_feistelDecryptPair (seed : Nat) (p : Nat × Nat)
    (h1 : p.1 < 65536) (h2 : p.2 < 65536) :
    feistelEncryptPair seed (feistelDecryptPair seed p) = p := by
  have b3f : (feistelUnround seed 3 p).1 < 65536 := feistelUnround_fst_lt _ _ _
  have b3s : (feistelUnround seed 3 p).2 < 65536 := feistelUnround_snd_lt _ _ _ h1
  have b2f : (feistelUnround seed 2 (feistelUnround seed 3 p)).1 < 65536 :=
    feistelUnround_fst_lt _ _ _
  have b2s : (feistelUnround seed 2 (feistelUnround seed 3 p)).2 < 65536 :=
    feistelUnround_snd_lt _ _ _ b3f
  have b1s : (feistelUnround seed 1 (feistelUnround seed 2 (feistelUnround seed 3 p))).2 < 65536 :=
    feistelUnround_snd_lt _ _ _ b2f
  unfold feistelEncryptPair feistelDecryptPair
  rw [feistelRound_feistelUnround seed 0 _ b1s, feistelRound_feistelUnround seed 1 _ b2s,
    feistelRound_feistelUnround seed 2 _ b3s, feistelRound_feistelUnround seed 3 _ h2]

lemma feistelEncrypt_lt (seed x : Nat) : feistelEncrypt seed x < 4294967296 := by
  have h1 := feistelEncryptPair_fst_lt seed (x / 65536 % 65536, x % 65536)
  have h2 := feistelEncryptPair_snd_lt seed (x / 65536 % 65536, x % 65536)
  unfold feistelEncrypt
  omega

lemma feistelDecrypt_lt (seed y : Nat) : feistelDecrypt seed y < 4294967296 := by
  have h1 := feistelDecryptPair_fst_lt seed (y / 65536 % 65536, y % 65536)
  have h2 := feistelDecryptPair_snd_lt seed (y / 65536 % 65536, y % 65536)
  unfold feistelDecrypt
  omega

lemma feistelDecrypt_feistelEncrypt (seed x : Nat) (hx : x < 4294967296) :
    feistelDecrypt seed (feistelEncrypt seed x) = x := by
  have hdx : x / 65536 < 65536 := by omega
  have hmx : x % 65536 < 65536 := by omega
  have e1 : x / 65536 % 65536 = x / 65536 := Nat.mod_eq_of_lt hdx
  have hb1 := feistelEncryptPair_fst_lt seed (x / 65536, x % 65536)
  have hb2 := feistelEncryptPair_snd_lt seed (x / 65536, x % 65536)
  unfold feistelEncrypt feistelDecrypt
  rw [e1]
  set p := feistelEncryptPair seed (x / 65536, x % 65536) with hp
  have hdiv : (p.1 * 65536 + p.2) / 65536 % 65536 = p.1 := by omega
  have hmod : (p.1 * 65536 + p.2) % 65536 = p.2 := by omega
  rw [hdiv, hmod]
  have hpe : (p.1, p.2) = p := rfl
  rw [hpe, hp, feistelDecryptPair_feistelEncryptPair seed _ hdx hmx]
  omega

lemma feistelEncrypt_feistelDecrypt (seed y : Nat) (hy : y < 4294967296) :
    feistelEncrypt seed (feistelDecrypt seed y) = y := by
  have hdy : y / 65536 < 65536 := by omega
  have hmy : y % 65536 < 65536 := by omega
  have e1 : y / 65536 % 65536 = y / 65536 := Nat.mod_eq_of_lt hdy
  have hb1 := feistelDecryptPair_fst_lt seed (y / 65536, y % 65536)
  have hb2 := feistelDecryptPair_snd_lt seed (y / 65536, y % 65536)
  unfold feistelEncrypt feistelDecrypt
  rw [e1]
  set p := feistelDecryptPair seed (y / 65536, y % 65536) with hp
  have hdiv : (p.1 * 65536 + p.2) / 65536 % 65536 = p.1 := by omega
  have hmod : (p.1 * 65536 + p.2) % 65536 = p.2 := by omega
  rw [hdiv, hmod]
  have hpe : (p.1, p.2) = p := rfl
  rw [hpe, hp, feistelEncryptPair_feistelDecryptPair seed _ hdy hmy]
  omega

/-! ### Association-list lemmas for the directory map -/

lemma lookup_isSome_iff_mem (m : List (String × PeerData)) (id : String) :
    (m.lookup id).isSome = true ↔ id ∈ m.map Prod.fst := by
  induction m with
  | nil => simp [List.lookup]
  | cons kv tl ih =>
      obtain ⟨k, v⟩ := kv
      by_cases h : id = k
      · subst h
        simp [List.lookup]
      · have hb : (id == k) = false := beq_eq_false_iff_ne.mpr h
        simp [List.lookup, hb, ih, h]

lemma lookup_mapSet_self (m : List (String × PeerData)) (id : String) (v : PeerData) :
    (mapSet m id v).lookup id = some v := by
  induction m with
  | nil => simp [mapSet, List.lookup]
  | cons kv tl ih =>
      by_cases h : kv.1 = id
      · simp [mapSet, h, List.lookup]
      · have hb : (id == kv.1) = false := beq_eq_false_iff_ne.mpr (Ne.symm h)
        simp [mapSet, h, List.lookup, hb, ih]

lemma mem_keys_mapSet (m : List (String × PeerData)) (id : String) (v : PeerData)
    (a : String) :
    a ∈ (mapSet m id v).map Prod.fst ↔ a ∈ m.map Prod.fst ∨ a = id := by
  induction m with
  | nil => simp [mapSet]
  | cons kv tl ih =>
      by_cases h : kv.1 = id
      · subst h
        simp [mapSet]
        tauto
      · simp [mapSet, h, ih]
        tauto

lemma wf_mapSet (m : List (String × PeerData)) (id : String) (v : PeerData)
    (h : (m.map Prod.fst).Nodup) : ((mapSet m id v).map Prod.fst).Nodup := by
  induction m with
  | nil => simp [mapSet]
  | cons kv tl ih =>
      simp only [List.map_cons, List.nodup_cons] at h
      by_cases hk : kv.1 = id
      · subst hk
        have hs : mapSet (kv :: tl) kv.1 v = (kv.1, v) :: tl := by
          unfold mapSet
          rw [if_pos rfl]
        rw [hs, List.map_cons, List.nodup_cons]
        exact h
      · simp only [mapSet, if_neg hk, List.map_cons, List.nodup_cons]
        refine ⟨?_, ih h.2⟩
        intro hmem
        rw [mem_keys_mapSet] at hmem
        rcases hmem with hmem | hmem
        · exact h.1 hmem
        · exact hk hmem

lemma length_mapSet_present (m : List (String × PeerData)) (id : String) (v : PeerData)
    (h : (m.lookup id).isSome = true) : (mapSet m id v).length = m.length := by
  induction m with
  | nil => simp [List.lookup] at h
  | cons kv tl ih =>
      by_cases hk : kv.1 = id
      · simp [mapSet, hk]
      · have hb : (id == kv.1) = false := beq_eq_false_iff_ne.mpr (Ne.symm hk)
        simp only [List.lookup, hb] at h
        simp [mapSet, hk, ih h]

lemma keys_mapDelete_sublist (m : List (String × PeerData)) (id : String) :
    ((mapDelete m id).map Prod.fst).Sublist (m.map Prod.fst) := by
  induction m with
  | nil => simp [mapDelete]
  | cons kv tl ih =>
      by_cases h : kv.1 = id
      · simp only [mapDelete, if_pos h, List.map_cons]
        exact List.sublist_cons_self _ _
      · simp only [mapDelete, if_neg h, List.map_cons]
        exact ih.cons₂ _

lemma wf_mapDelete (m : List (String × PeerData)) (id : String)
    (h : (m.map Prod.fst).Nodup) : ((mapDelete m id).map Prod.fst).Nodup :=
  h.sublist (keys_mapDelete_sublist m id)

lemma mapDelete_eq_filter (m : List (String × PeerData)) (id : String)
    (h : (m.map Prod.fst).Nodup) :
    mapDelete m id = m.filter fun kv => decide ¬(kv.1 = id) := by
  induction m with
  | nil => rfl
  | cons kv tl ih =>
      simp only [List.map_cons, List.nodup_cons] at h
      by_cases hk : kv.1 = id
      · subst hk
        have hd : mapDelete (kv :: tl) kv.1 = tl := by
          unfold mapDelete
          rw [if_pos rfl]
        have hfc : List.filter (fun a => decide ¬(a.1 = kv.1)) (kv :: tl)
            = List.filter (fun a => decide ¬(a.1 = kv.1)) tl := by
          rw [List.filter_cons]
          simp
        rw [hd, hfc, List.filter_eq_self.mpr]
        intro a ha
        have hmem : a.1 ∈ tl.map Prod.fst := List.mem_map_of_mem _ ha
        have hne : ¬(a.1 = kv.1) := fun he => h.1 (he ▸ hmem)
        simp [hne]
      · have hd : mapDelete (kv :: tl) id = kv :: mapDelete tl id := by
          simp [mapDelete, hk]
        rw [hd, ih h.2, List.filter_cons]
        simp [hk]

/-! ### The eviction sweep is exactly a staleness filter -/

lemma sweep_foldl (P : String × PeerData → Bool) :
    ∀ (l acc : List (String × PeerData)) (c : Nat),
      (acc.map Prod.fst).Nodup →
      l.foldl (fun a kv => if P kv then (mapDelete a.1 kv.1, a.2 + 1) else a) (acc, c)
        = (acc.filter fun kv => decide (kv.1 ∉ (l.filter P).map Prod.fst),
           c + (l.filter P).length) := by
  intro l
  induction l with
  | nil =>
      intro acc c h
      simp
  | cons kv tl ih =>
      intro acc c h
      by_cases hP : P kv
      · have hdel : mapDelete acc kv.1 = acc.filter fun a => decide ¬(a.1 = kv.1) :=
          mapDelete_eq_filter acc kv.1 h
        have hwf : ((acc.filter fun a => decide ¬(a.1 = kv.1)).map Prod.fst).Nodup :=
          h.sublist ((List.filter_sublist _).map Prod.fst)
        simp only [List.foldl_cons, hP, if_pos, hdel]
        rw [ih _ (c + 1) hwf]
        rw [List.filter_filter]
        simp only [List.filter_cons, hP, if_pos, List.map_cons, List.length_cons,
          Prod.mk.injEq]
        refine ⟨?_, ?_⟩
        · apply List.filter_congr
          intro a _
          by_cases h1 : a.1 = kv.1 <;> by_cases h2 : a.1 ∈ (tl.filter P).map Prod.fst <;>
            simp [h1, h2, List.mem_cons]
        · omega
      · simp only [List.foldl_cons, hP, if_neg, Bool.false_eq_true, if_false]
        rw [ih acc c h]
        simp only [List.filter_cons, hP, Bool.false_eq_true, if_false]

lemma sweepStale_eq_filter (m : List (String × PeerData)) (P : String × PeerData → Bool)
    (h : (m.map Prod.fst).Nodup) :
    sweepStale m P = (m.filter fun kv => !P kv, (m.filter P).length) := by
  unfold sweepStale
  rw [sweep_foldl P m m 0 h]
  simp only [Nat.zero_add, Prod.mk.injEq]
  refine ⟨?_, trivial⟩
  apply List.filter_congr
  intro kv hkv
  by_cases hP : P kv
  · have hmem : kv.1 ∈ (m.filter P).map Prod.fst :=
      List.mem_map_of_mem _ (List.mem_filter.mpr ⟨hkv, hP⟩)
    simp [hP, hmem]
  · have hmem : kv.1 ∉ (m.filter P).map Prod.fst := by
      intro hc
      obtain ⟨kv', hkv', hkey⟩ := List.mem_map.mp hc
      have hkv'm : kv' ∈ m := (List.mem_filter.mp hkv').1
      have hkv'P : P kv' = true := (List.mem_filter.mp hkv').2
      have heq : kv' = kv := List.inj_on_of_nodup_map h hkv'm hkv hkey
      rw [heq] at hkv'P
      exact hP hkv'P
    simp [hP, hmem]

/-! ### Preservation of the uniqueness invariant by every operation -/

lemma wf_addOrUpdatePeer (pm : PeerManager) (id : String) (seq : Nat)
    (key : Option (List Nat)) (now : Int) (h : pm.Wf) :
    (pm.addOrUpdatePeer id seq key now).1.Wf :=
  wf_mapSet pm.seenPeers id _ h

lemma wf_removePeer (pm : PeerManager) (id : String) (h : pm.Wf) :
    (pm.removePeer id).1.Wf :=
  wf_mapDelete pm.seenPeers id h

lemma wf_filter (pm : PeerManager) (p : String × PeerData → Bool) (h : pm.Wf) :
    ((pm.seenPeers.filter p).map Prod.fst).Nodup :=
  h.sublist ((List.filter_sublist _).map Prod.fst)

lemma wf_cleanupStalePeers (pm : PeerManager) (now timeoutMs : Int) (h : pm.Wf) :
    (pm.cleanupStalePeers now timeoutMs).1.Wf := by
  unfold PeerManager.cleanupStalePeers
  rw [sweepStale_eq_filter _ _ h]
  exact wf_filter pm _ h

lemma wf_prune (pm : PeerManager) (now maxAge : Int) (h : pm.Wf) :
    (pm.prune now maxAge).1.Wf := by
  unfold PeerManager.prune
  rw [sweepStale_eq_filter _ _ h]
  exact wf_filter pm _ h

lemma wf_foldl_mapSet (f : PeerJson → PeerData) :
    ∀ (data : List PeerJson) (m : List (String × PeerData)),
      (m.map Prod.fst).Nodup →
      ((data.foldl (fun m p => mapSet m p.id (f p)) m).map Prod.fst).Nodup := by
  intro data
  induction data with
  | nil => intro m h; exact h
  | cons p tl ih =>
      intro m h
      exact ih _ (wf_mapSet m p.id (f p) h)

lemma wf_fromJSON (pm : PeerManager) (data : List PeerJson) (now : Int) (h : pm.Wf) :
    (pm.fromJSON data now).Wf :=
  wf_foldl_mapSet _ data pm.seenPeers h

/-! ### Scan-loop lemmas -/

lemma scanGo_attempts_le (env : BootstrapEnv) (seed : Nat) (timeout : Int) :
    ∀ fuel attempts : Nat, (scanGo env seed timeout fuel attempts).2 ≤ attempts + fuel := by
  intro fuel
  induction fuel with
  | zero =>
      intro attempts
      simp [scanGo]
  | succ n ih =>
      intro attempts
      have hrec := ih (attempts + 1)
      by_cases h1 : env.clock attempts > timeout
      · simp [scanGo, h1]
      · simp only [scanGo, h1, if_false]
        split_ifs <;> simp <;> omega

lemma scanGo_none_of_unreachable (env : BootstrapEnv) (seed : Nat) (timeout : Int)
    (hconn : ∀ ip port, env.connectOk ip port = false) :
    ∀ fuel attempts : Nat, (scanGo env seed timeout fuel attempts).1 = none := by
  intro fuel
  induction fuel with
  | zero =>
      intro attempts
      rfl
  | succ n ih =>
      intro attempts
      by_cases h1 : env.clock attempts > timeout
      · simp [scanGo, h1]
      · simp [scanGo, h1, hconn, ih]

/-! ### Bootstrap orchestration lemmas -/

lemma afterDebug_save_characterization (env : BootstrapEnv) (seed : Nat) :
    (∀ ps, BEvent.cacheSave ps ∈ (bootstrapAfterDebug env seed).2 →
      ∃ p, (bootstrapAfterDebug env seed).1 = BootResult.scannedPeer p ∧ ps = [p]) ∧
    (∀ p, (bootstrapAfterDebug env seed).1 = BootResult.scannedPeer p →
      BEvent.cacheSave [p] ∈ (bootstrapAfterDebug env seed).2) := by
  unfold bootstrapAfterDebug
  cases hcache : retryCachedPeers env with
  | some p => simp
  | none =>
      cases hscan : (scanIPv4Space env seed env.bootstrapTimeout).1 with
      | some pr =>
          obtain ⟨ip, port⟩ := pr
          constructor
          · intro ps hps
            refine ⟨⟨ip, port, none, env.now⟩, rfl, ?_⟩
            simpa using hps
          · intro p hp
            simp only [BootResult.scannedPeer.injEq] at hp
            simp [hp]
      | none => simp

lemma afterDebug_phases (env : BootstrapEnv) (seed : Nat) :
    BEvent.cachePhase ∈ (bootstrapAfterDebug env seed).2 ∧
    (BEvent.scanPhase ∈ (bootstrapAfterDebug env seed).2 → retryCachedPeers env = none) := by
  unfold bootstrapAfterDebug
  cases hcache : retryCachedPeers env with
  | some p => simp
  | none =>
      cases hscan : (scanIPv4Space env seed env.bootstrapTimeout).1 with
      | some pr =>
          obtain ⟨ip, port⟩ := pr
          simp
      | none => simp

/-! ### Claim theorems -/

/-- Claim C1: for every 32-bit seed and every pair of distinct counter
values below `2^32`, the Address-Space Enumerator's outputs are distinct,
and over all `2^32` counter values it covers every 32-bit value — the
Feistel rounds keyed by the seed form a bijection on `[0, 2^32)`. -/
theorem feistel_enumerator_bijective (seed : Nat) :
    (∀ i j, i < 4294967296 → j < 4294967296 → i ≠ j →
      feistelEncrypt seed i ≠ feistelEncrypt seed j) ∧
    (∀ y, y < 4294967296 → ∃ i, i < 4294967296 ∧ feistelEncrypt seed i = y) := by
  constructor
  · intro i j hi hj hne heq
    apply hne
    have h := congrArg (feistelDecrypt seed) heq
    rwa [feistelDecrypt_feistelEncrypt seed i hi,
      feistelDecrypt_feistelEncrypt seed j hj] at h
  · intro y hy
    exact ⟨feistelDecrypt seed y, feistelDecrypt_lt seed y,
      feistelEncrypt_feistelDecrypt seed y hy⟩

/-- Witness for C1 at seed 7: counters 0 and 1 give distinct outputs, and
the value 12345 is hit by some counter below `2^32`. -/
theorem feistel_enumerator_bijective_witness :
    feistelEncrypt 7 0 ≠ feistelEncrypt 7 1 ∧
    ∃ i, i < 4294967296 ∧ feistelEncrypt 7 i = 12345 :=
  ⟨(feistel_enumerator_bijective 7).1 0 1 (by norm_num) (by norm_num) (by norm_num),
   (feistel_enumerator_bijective 7).2 12345 (by norm_num)⟩

/-- Claim C2: `canAcceptPeer` returns true iff the id is already present or
the tracked-peer count is below the capacity ceiling; a new id is denied
exactly when the count equals the capacity (whenever the count does not
exceed it); and `addOrUpdatePeer` of any id always succeeds regardless of
capacity. -/
theorem canAcceptPeer_admission (pm : PeerManager) (maxPeers : Nat) (id : String)
    (seq : Nat) (key : Option (List Nat)) (now : Int) :
    (pm.canAcceptPeer maxPeers id = true ↔ (pm.hasPeer id = true ∨ pm.size < maxPeers)) ∧
    (pm.size ≤ maxPeers → pm.hasPeer id = false →
      (pm.canAcceptPeer maxPeers id = false ↔ pm.size = maxPeers)) ∧
    ((pm.addOrUpdatePeer id seq key now).1.getPeer id = some ⟨seq, now, key, none, none⟩) := by
  refine ⟨?_, ?_, ?_⟩
  · unfold PeerManager.canAcceptPeer PeerManager.hasPeer PeerManager.size
    by_cases h : (pm.seenPeers.lookup id).isSome <;> simp [h]
  · intro hle hnew
    unfold PeerManager.hasPeer at hnew
    unfold PeerManager.size at hle
    unfold PeerManager.canAcceptPeer PeerManager.size
    simp only [hnew, Bool.false_eq_true, if_false]
    simp
    omega
  · exact lookup_mapSet_self pm.seenPeers id _

/-- Witness for C2 at a directory holding one peer `"x"` with capacity 1:
the new id `"y"` is denied exactly because the count equals the capacity,
while updating the present id `"x"` still succeeds. -/
theorem canAcceptPeer_admission_witness :
    (pmFull.canAcceptPeer 1 "y" = true ↔ (pmFull.hasPeer "y" = true ∨ pmFull.size < 1)) ∧
    (pmFull.canAcceptPeer 1 "y" = false ↔ pmFull.size = 1) ∧
    ((pmFull.addOrUpdatePeer "x" 5 none 7).1.getPeer "x" = some ⟨5, 7, none, none, none⟩) :=
  ⟨(canAcceptPeer_admission pmFull 1 "y" 5 none 7).1,
   (canAcceptPeer_admission pmFull 1 "y" 5 none 7).2.1 (by decide) (by decide),
   (canAcceptPeer_admission pmFull 1 "x" 5 none 7).2.2⟩

/-- Claim C3: the eviction sweeps remove exactly the entries whose
`lastSeen` is older than the timeout — no others — and return the number
removed; with entries of ages 5 s, 20 s and 61 s and a 60 s limit, exactly
one entry is removed. -/
theorem evictStale_removes_exactly_stale (pm : PeerManager) (now timeoutMs maxAge : Int)
    (h : pm.Wf) :
    (pm.cleanupStalePeers now timeoutMs
        = ({ pm with seenPeers :=
              pm.seenPeers.filter fun kv => !decide (now - kv.2.lastSeen > timeoutMs) },
           (pm.seenPeers.filter fun kv => decide (now - kv.2.lastSeen > timeoutMs)).length)) ∧
    (pm.prune now maxAge
        = ({ pm with seenPeers :=
              pm.seenPeers.filter fun kv => !decide (now - kv.2.lastSeen > maxAge * 1000) },
           (pm.seenPeers.filter fun kv => decide (now - kv.2.lastSeen > maxAge * 1000)).length)) ∧
    (pmAges.prune 100000 60).2 = 1 := by
  refine ⟨?_, ?_, by decide⟩
  · simp only [PeerManager.cleanupStalePeers]
    rw [sweepStale_eq_filter _ _ h]
  · simp only [PeerManager.prune]
    rw [sweepStale_eq_filter _ _ h]

/-- Witness for C3 at the concrete directory with ages 5 s, 20 s, 61 s and
`prune 60`: the sweep equals the staleness filter there. -/
theorem evictStale_removes_exactly_stale_witness :
    pmAges.prune 100000 60
      = ({ pmAges with seenPeers :=
            pmAges.seenPeers.filter fun kv => !decide (100000 - kv.2.lastSeen > 60 * 1000) },
         (pmAges.seenPeers.filter fun kv => decide (100000 - kv.2.lastSeen > 60 * 1000)).length) :=
  (evictStale_removes_exactly_stale pmAges 100000 15000 60 (by decide)).2.1

/-- Counterexample to C4: at a concrete environment whose configured debug
peer answers, `bootstrapPeers` succeeds in the debug phase yet emits no
`cacheSave` event at all — the successful peer is never handed to the
Peer Cache, contradicting the claim that every phase 1-3 success is
cached. -/
theorem bootstrap_debug_success_not_saved :
    (bootstrapPeers envDebug 42).1 = BootResult.debugPeer "9.9.9.9" 3000 ∧
    (bootstrapPeers envDebug 42).2 = [] := by
  decide

/-- Claim C4 (amended): only a scan-phase success is handed to the Peer
Cache: a `cacheSave` event occurs iff the run returns a scanned peer, and
then it saves exactly that peer (augmented with `id` null and `lastSeen`
now); debug-override and cache-replay successes are not saved. -/
theorem bootstrap_saves_only_scanned_peer (env : BootstrapEnv) (seed : Nat) :
    (∀ ps, BEvent.cacheSave ps ∈ (bootstrapPeers env seed).2 →
      ∃ p, (bootstrapPeers env seed).1 = BootResult.scannedPeer p ∧ ps = [p]) ∧
    (∀ p, (bootstrapPeers env seed).1 = BootResult.scannedPeer p →
      BEvent.cacheSave [p] ∈ (bootstrapPeers env seed).2) := by
  cases hdip : env.bootstrapPeerIp with
  | none =>
      have hb : bootstrapPeers env seed = bootstrapAfterDebug env seed := by
        unfold bootstrapPeers
        rw [hdip]
      rw [hb]
      exact afterDebug_save_characterization env seed
  | some dip =>
      by_cases hconn : env.connectOk dip env.scanPort
      · have hb : bootstrapPeers env seed = (BootResult.debugPeer dip env.scanPort, []) := by
          unfold bootstrapPeers
          rw [hdip]
          simp [hconn]
        rw [hb]
        constructor
        · intro ps hps
          simp at hps
        · intro p hp
          simp at hp
      · have hb : bootstrapPeers env seed = bootstrapAfterDebug env seed := by
          unfold bootstrapPeers
          rw [hdip]
          simp [hconn]
        rw [hb]
        exact afterDebug_save_characterization env seed

/-- Witness for C4 (amended) at a concrete environment where the scan phase
finds a peer: that peer is handed to `savePeerCache`. -/
theorem bootstrap_saves_only_scanned_peer_witness :
    BEvent.cacheSave [⟨"73.148.23.223", 3000, none, 2000⟩] ∈ (bootstrapPeers envScan 42).2 :=
  (bootstrap_saves_only_scanned_peer envScan 42).2 ⟨"73.148.23.223", 3000, none, 2000⟩
    (by decide)

/-- Counterexample to C5: a cache file whose `version` field is 2 — differing
from the format tag 1 that `savePeerCache` writes — is not discarded: its
peers are returned rather than the empty result the claim requires. -/
theorem loadPeerCache_accepts_mismatched_version :
    loadPeerCache true
        (FileState.parsed (CacheData.jobject 2 0 (some [⟨"1.2.3.4", 3000, none, 500⟩])))
        1000 86400
      = [⟨"1.2.3.4", 3000, none, 500⟩] ∧
    ([⟨"1.2.3.4", 3000, none, 500⟩] : List CachePeer) ≠ [] := by
  decide

/-- Claim C5 (amended): `loadPeerCache` never raises: a missing file, an
unparseable file, a non-object-non-array file and an object without an
array `peers` field all yield the empty result; but the `version` field is
never compared against the expected tag — any file with a non-zero
(truthy) `version` has its `peers` array used, whatever the version
value. -/
theorem loadPeerCache_failure_policy (enabled : Bool) (now maxAge ts : Int)
    (v : Nat) (ps : List CachePeer) :
    loadPeerCache enabled FileState.missing now maxAge = [] ∧
    loadPeerCache enabled FileState.corrupt now maxAge = [] ∧
    loadPeerCache enabled (FileState.parsed CacheData.other) now maxAge = [] ∧
    loadPeerCache enabled (FileState.parsed (CacheData.jobject v ts none)) now maxAge = [] ∧
    (v ≠ 0 →
      loadPeerCache true (FileState.parsed (CacheData.jobject v ts (some ps))) now maxAge
        = ps.filter fun p => decide (now - p.lastSeen < maxAge * 1000)) := by
  refine ⟨?_, ?_, ?_, ?_, ?_⟩
  · cases enabled <;> rfl
  · cases enabled <;> rfl
  · cases enabled <;> rfl
  · cases enabled <;> by_cases hv : v ≠ 0 <;> simp [loadPeerCache, hv]
  · intro hv
    simp [loadPeerCache, hv]

/-- Witness for C5 (amended): a concrete version-2 file with one fresh peer
is read back in full. -/
theorem loadPeerCache_failure_policy_witness :
    loadPeerCache true
        (FileState.parsed (CacheData.jobject 2 5 (some [⟨"8.8.8.8", 3000, none, 900⟩])))
        1000 86400
      = [⟨"8.8.8.8", 3000, none, 900⟩] := by
  rw [(loadPeerCache_failure_policy true 1000 86400 5 2
    [⟨"8.8.8.8", 3000, none, 900⟩]).2.2.2.2 (by decide)]
  decide

/-- Claim C6: with caching enabled, `savePeerCache` of a list of at most
100 peers followed by `loadPeerCache` with a max-age exceeding every
peer's elapsed age returns the saved list unchanged, in the same
(most-recently-seen-first) order. -/
theorem peer_cache_roundtrip (file : FileState) (peers : List CachePeer)
    (saveTime now maxAge : Int) (hlen : peers.length ≤ 100)
    (hfresh : ∀ p ∈ peers, now - p.lastSeen < maxAge * 1000) :
    loadPeerCache true (savePeerCache true file saveTime peers) now maxAge = peers := by
  unfold savePeerCache loadPeerCache
  simp only [Bool.not_true, Bool.false_eq_true, if_false]
  rw [List.take_of_length_le hlen]
  simp only [ne_eq, one_ne_zero, not_false_iff, if_true]
  apply List.filter_eq_self.mpr
  intro p hp
  simpa using hfresh p hp

/-- Witness for C6: two concrete peers round-trip through the cache
unchanged and in order. -/
theorem peer_cache_roundtrip_witness :
    loadPeerCache true (savePeerCache true FileState.missing 950 [p1, p2]) 1000 86400
      = [p1, p2] :=
  peer_cache_roundtrip FileState.missing [p1, p2] 950 1000 86400 (by decide) (by decide)

/-- Claim C7: the directory holds at most one record per id — its key list
is duplicate-free — and this invariant is preserved by `addOrUpdatePeer`,
`removePeer`, both eviction sweeps and `fromJSON`; upserting a present id
overwrites in place, leaving the entry count unchanged. -/
theorem directory_id_uniqueness_invariant (pm : PeerManager) (id : String) (seq : Nat)
    (key : Option (List Nat)) (now timeoutMs maxAge : Int) (data : List PeerJson)
    (h : pm.Wf) :
    (pm.addOrUpdatePeer id seq key now).1.Wf ∧
    (pm.removePeer id).1.Wf ∧
    (pm.cleanupStalePeers now timeoutMs).1.Wf ∧
    (pm.prune now maxAge).1.Wf ∧
    (pm.fromJSON data now).Wf ∧
    (pm.hasPeer id = true → (pm.addOrUpdatePeer id seq key now).1.size = pm.size) :=
  ⟨wf_addOrUpdatePeer pm id seq key now h, wf_removePeer pm id h,
   wf_cleanupStalePeers pm now timeoutMs h, wf_prune pm now maxAge h,
   wf_fromJSON pm data now h,
   fun hp => length_mapSet_present pm.seenPeers id _ hp⟩

/-- Witness for C7 at a concrete directory: deserializing a record for an
id already present keeps the key list duplicate-free, and upserting the
present id `"a"` leaves the count at 3. -/
theorem directory_id_uniqueness_invariant_witness :
    (pmAges.fromJSON [⟨"a", some 9, some 50, none, none, none⟩] 123).Wf ∧
    (pmAges.addOrUpdatePeer "a" 9 none 123).1.size = pmAges.size :=
  ⟨(directory_id_uniqueness_invariant pmAges "a" 9 none 123 15000 86400
      [⟨"a", some 9, some 50, none, none, none⟩] (by decide)).2.2.2.2.1,
   (directory_id_uniqueness_invariant pmAges "a" 9 none 123 15000 86400 []
      (by decide)).2.2.2.2.2 (by decide)⟩

/-- Claim C8: with a reachable debug peer configured, `bootstrapPeers`
returns it having invoked neither the cache-replay phase nor the scan
phase; in general the scan phase runs only after cache replay has failed,
and any post-debug phase runs only when the debug attempt failed or was
not configured — strict phase precedence. -/
theorem bootstrap_phase_precedence (env : BootstrapEnv) (seed : Nat) :
    (∀ dip, env.bootstrapPeerIp = some dip → env.connectOk dip env.scanPort = true →
      bootstrapPeers env seed = (BootResult.debugPeer dip env.scanPort, [])) ∧
    (BEvent.scanPhase ∈ (bootstrapPeers env seed).2 →
      BEvent.cachePhase ∈ (bootstrapPeers env seed).2 ∧ retryCachedPeers env = none) ∧
    (BEvent.cachePhase ∈ (bootstrapPeers env seed).2 →
      ∀ dip, env.bootstrapPeerIp = some dip → env.connectOk dip env.scanPort = false) := by
  refine ⟨?_, ?_, ?_⟩
  · intro dip hdip hconn
    unfold bootstrapPeers
    rw [hdip]
    simp [hconn]
  · intro hscan
    cases hdip : env.bootstrapPeerIp with
    | none =>
        have hb : bootstrapPeers env seed = bootstrapAfterDebug env seed := by
          unfold bootstrapPeers
          rw [hdip]
        rw [hb] at hscan ⊢
        exact ⟨(afterDebug_phases env seed).1, (afterDebug_phases env seed).2 hscan⟩
    | some dip =>
        by_cases hconn : env.connectOk dip env.scanPort
        · have hb : bootstrapPeers env seed = (BootResult.debugPeer dip env.scanPort, []) := by
            unfold bootstrapPeers
            rw [hdip]
            simp [hconn]
          rw [hb] at hscan
          simp at hscan
        · have hb : bootstrapPeers env seed = bootstrapAfterDebug env seed := by
            unfold bootstrapPeers
            rw [hdip]
            simp [hconn]
          rw [hb] at hscan ⊢
          exact ⟨(afterDebug_phases env seed).1, (afterDebug_phases env seed).2 hscan⟩
  · intro hcache dip hdip
    by_cases hconn : env.connectOk dip env.scanPort
    · have hb : bootstrapPeers env seed = (BootResult.debugPeer dip env.scanPort, []) := by
        unfold bootstrapPeers
        rw [hdip]
        simp [hconn]
      rw [hb] at hcache
      simp at hcache
    · simpa using hconn

/-- Witness for C8: at a concrete environment whose debug peer answers,
`bootstrapPeers` returns it directly with no phase events at all. -/
theorem bootstrap_phase_precedence_witness :
    bootstrapPeers envDebug 42 = (BootResult.debugPeer "9.9.9.9" envDebug.scanPort, []) :=
  (bootstrap_phase_precedence envDebug 42).1 "9.9.9.9" rfl (by decide)

/-- Claim C9: the IPv4 scan consumes at most 100000 enumerator candidates,
and when no connection attempt ever succeeds it returns `null` — whatever
the configured timeout and however the clock behaves. -/
theorem scanIPv4Space_bounded_attempts (env : BootstrapEnv) (seed : Nat) (timeout : Int) :
    (scanIPv4Space env seed timeout).2 ≤ 100000 ∧
    ((∀ ip port, env.connectOk ip port = false) →
      (scanIPv4Space env seed timeout).1 = none) := by
  constructor
  · have h := scanGo_attempts_le env seed timeout 100000 0
    simpa [scanIPv4Space] using h
  · intro hconn
    exact scanGo_none_of_unreachable env seed timeout hconn 100000 0

/-- Witness for C9 at a concrete environment where nothing is reachable and
the deadline (10^9 ms, with a clock frozen at 0) never elapses: the scan
still stops within the attempt bound and reports no peer. -/
theorem scanIPv4Space_bounded_attempts_witness :
    (scanIPv4Space envNoPeers 1 1000000000).2 ≤ 100000 ∧
    (scanIPv4Space envNoPeers 1 1000000000).1 = none :=
  ⟨(scanIPv4Space_bounded_attempts envNoPeers 1 1000000000).1,
   (scanIPv4Space_bounded_attempts envNoPeers 1 1000000000).2 (fun _ _ => rfl)⟩

/-- Claim C10: `addOrUpdatePeer` unconditionally overwrites the stored
record of an id with the given sequence number — even a strictly smaller
one — and always refreshes `lastSeen` to the current time; the reported
`wasNew` flag is simply the absence of the id beforehand. -/
theorem addOrUpdatePeer_unconditional_overwrite (pm : PeerManager) (id : String)
    (seq : Nat) (key : Option (List Nat)) (now : Int) :
    ((pm.addOrUpdatePeer id seq key now).1.getPeer id = some ⟨seq, now, key, none, none⟩) ∧
    ((pm.addOrUpdatePeer id seq key now).2 = !pm.hasPeer id) := by
  constructor
  · exact lookup_mapSet_self pm.seenPeers id _
  · unfold PeerManager.addOrUpdatePeer PeerManager.hasPeer
    cases pm.seenPeers.lookup id <;> rfl

end Hypermind
